import Mathlib

/-!
A shallow embedding of the StrongAfter blackboard orchestration core
(`backend/blackboard/blackboard.py`, `base_agent.py`, `control_strategy.py`).

Python dictionaries are modelled as association lists with unique keys,
Python floats as rationals (`ℚ`), and wall-clock timestamps are elided
(no claim depends on them).  Async execution is modelled by passing the
outcome of each awaited task (normal result, raised exception, or group
timeout) as an explicit oracle argument.
-/

namespace StrongAfter

/-- A Python value as stored on the therapy blackboard: `None`, booleans,
integers, strings, lists and string-keyed dictionaries. -/
inductive Value where
  | none
  | bool (b : Bool)
  | int (n : Int)
  | str (s : String)
  | list (xs : List Value)
  | dict (xs : List (String × Value))

/-- `v is None` check used by `has_data`. -/
def Value.isNone : Value → Bool
  | Value.none => true
  | _ => false

/-- `BlackboardEntry` from `blackboard.py` (the wall-clock `timestamp`
field is elided). -/
structure BlackboardEntry where
  key : String
  value : Value
  source : String
  confidence : ℚ
  metadata : List (String × Value)

/-- Lookup in an association list (model of `dict.get`). -/
def lookupKey {β : Type} : List (String × β) → String → Option β
  | [], _ => Option.none
  | (k', v) :: rest, k => if k' = k then some v else lookupKey rest k

/-- Insert-or-replace in an association list (model of `dict[k] = v`:
an existing key keeps its position, a new key is appended). -/
def setKey {β : Type} : List (String × β) → String → β → List (String × β)
  | [], k, v => [(k, v)]
  | (k', v') :: rest, k, v =>
      if k' = k then (k, v) :: rest else (k', v') :: setKey rest k v

/-- The store's `metrics` dictionary. -/
structure BlackboardMetrics where
  total_writes : Nat
  total_reads : Nat
  agent_contributions : List (String × Nat)
  processing_stages : List (String × List ℚ)

/-- The metrics value set by `__init__` and `clear()`. -/
def zeroMetrics : BlackboardMetrics :=
  { total_writes := 0, total_reads := 0, agent_contributions := [], processing_stages := [] }

/-- `TherapyBlackboard` state.  Subscriber callbacks are modelled as
opaque identifiers (`Nat`); invoking a callback is modelled by emitting
the pair (callback id, entry) from `write`. -/
structure TherapyBlackboard where
  data : List (String × BlackboardEntry)
  subscribers : List (String × List Nat)
  processing_start_time : Option ℚ
  metrics : BlackboardMetrics

/-- The `initial_data` table of `_initialize_structure`. -/
def initialData : List (String × Value) :=
  [("user_input", Value.none),
   ("preprocessed_text", Value.none),
   ("user_intent", Value.none),
   ("theme_candidates", Value.list []),
   ("theme_scores", Value.dict []),
   ("selected_themes", Value.list []),
   ("retrieved_excerpts", Value.dict []),
   ("excerpt_summaries", Value.dict []),
   ("partial_summaries", Value.dict []),
   ("citations", Value.list []),
   ("final_response", Value.none),
   ("quality_score", Value.none),
   ("confidence_scores", Value.dict []),
   ("processing_status",
     Value.dict [("theme_analysis", Value.str "pending"),
                 ("excerpt_retrieval", Value.str "pending"),
                 ("summary_generation", Value.str "pending"),
                 ("quality_assurance", Value.str "pending")]),
   ("streaming_updates", Value.list []),
   ("error_messages", Value.list []),
   ("fallback_triggered", Value.bool false)]

/-- The entry `_initialize_structure` writes for one schema key. -/
def initEntry (k : String) (v : Value) : BlackboardEntry :=
  { key := k, value := v, source := "initialization", confidence := 1, metadata := [] }

/-- `_initialize_structure`: assigns each schema key its default entry on
top of whatever `_data` currently holds (it does not empty `_data`). -/
def initializeStructure (bb : TherapyBlackboard) : TherapyBlackboard :=
  { bb with
    data := initialData.foldl (fun d kv => setKey d kv.1 (initEntry kv.1 kv.2)) bb.data }

/-- `TherapyBlackboard.__init__`: empty dict, empty subscribers, zero
counters, then `_initialize_structure`. -/
def mkBlackboard : TherapyBlackboard :=
  initializeStructure
    { data := [], subscribers := [], processing_start_time := Option.none,
      metrics := zeroMetrics }

/-- Increment of `metrics['agent_contributions'][source]`
(initialising the counter to 0 if the source is new). -/
def bumpContribution (l : List (String × Nat)) (source : String) : List (String × Nat) :=
  setKey l source ((lookupKey l source).getD 0 + 1)

/-- `TherapyBlackboard.write`: replaces the entry, bumps the write
counter and the per-source counter, and notifies the key's subscribers.
Returns the new state together with the list of (callback, entry)
invocations performed by `_notify_subscribers`. -/
def write (bb : TherapyBlackboard) (key : String) (value : Value) (source : String)
    (confidence : ℚ) (metadata : List (String × Value)) :
    TherapyBlackboard × List (Nat × BlackboardEntry) :=
  let entry : BlackboardEntry :=
    { key := key, value := value, source := source, confidence := confidence,
      metadata := metadata }
  ({ bb with
     data := setKey bb.data key entry,
     metrics := { bb.metrics with
       total_writes := bb.metrics.total_writes + 1,
       agent_contributions := bumpContribution bb.metrics.agent_contributions source } },
   ((lookupKey bb.subscribers key).getD []).map (fun cb => (cb, entry)))

/-- `TherapyBlackboard.read`: bumps the read counter and returns the
entry's value, or `None` when the key is absent. -/
def read (bb : TherapyBlackboard) (key : String) : Value × TherapyBlackboard :=
  ((match lookupKey bb.data key with
    | some e => e.value
    | Option.none => Value.none),
   { bb with metrics := { bb.metrics with total_reads := bb.metrics.total_reads + 1 } })

/-- `TherapyBlackboard.has_data`: entry exists and its value is not `None`. -/
def hasData (bb : TherapyBlackboard) (key : String) : Bool :=
  match lookupKey bb.data key with
  | some e => !e.value.isNone
  | Option.none => false

/-- The fixed `prerequisites` table inside `is_ready_for`
(`dict.get(operation, [])` semantics: unknown operations map to `[]`). -/
def prerequisitesTable (operation : String) : List String :=
  if operation = "theme_analysis" then ["preprocessed_text", "theme_candidates"]
  else if operation = "excerpt_retrieval" then ["selected_themes"]
  else if operation = "summary_generation" then ["retrieved_excerpts", "selected_themes"]
  else if operation = "quality_assurance" then ["final_response"]
  else if operation = "streaming_update" then ["theme_scores"]
  else []

/-- `TherapyBlackboard.is_ready_for`. -/
def isReadyFor (bb : TherapyBlackboard) (operation : String) : Bool :=
  (prerequisitesTable operation).all (hasData bb)

/-- `TherapyBlackboard.subscribe`: appends the callback to the key's list. -/
def subscribe (bb : TherapyBlackboard) (key : String) (cb : Nat) : TherapyBlackboard :=
  { bb with
    subscribers :=
      setKey bb.subscribers key (((lookupKey bb.subscribers key).getD []) ++ [cb]) }

/-- `TherapyBlackboard.clear`: re-runs `_initialize_structure` over the
current `_data`, resets the start time and the counters.  It does not
touch `_subscribers` and does not empty `_data` first. -/
def clear (bb : TherapyBlackboard) : TherapyBlackboard :=
  { initializeStructure bb with
    processing_start_time := Option.none,
    metrics := zeroMetrics }

/-- `AgentCapabilities` dataclass from `base_agent.py`. -/
structure AgentCapabilities where
  can_process_parallel : Bool
  requires_gpu : Bool
  estimated_processing_time : ℚ
  confidence_threshold : ℚ
  fallback_available : Bool
deriving DecidableEq

/-- The dataclass field defaults of `AgentCapabilities`. -/
def defaultCapabilities : AgentCapabilities :=
  { can_process_parallel := true, requires_gpu := false,
    estimated_processing_time := 1, confidence_threshold := 7/10,
    fallback_available := false }

/-- The `self.metrics` dictionary of `BaseAgent`. -/
structure AgentMetrics where
  total_executions : Nat
  total_time : ℚ
  average_time : ℚ
  success_rate : ℚ
  last_confidence : ℚ
deriving DecidableEq

/-- The metrics seed from `BaseAgent.__init__` (success rate starts at 1.0). -/
def initialMetrics : AgentMetrics :=
  { total_executions := 0, total_time := 0, average_time := 0,
    success_rate := 1, last_confidence := 0 }

/-- A `BaseAgent` instance: its constructor data (`name`, `priority`,
`capabilities`), its static declarations `get_prerequisites()` /
`get_outputs()`, and its mutable state.  `last_execution_time` and the
`errors` list are elided (no claim depends on them). -/
structure Agent where
  name : String
  priority : Int
  capabilities : AgentCapabilities
  prerequisites : List String
  outputs : List String
  is_running : Bool
  execution_count : Nat
  metrics : AgentMetrics
deriving DecidableEq

/-- Builds an agent exactly as `BaseAgent.__init__` does (idle, zero
executions, seeded metrics). -/
def mkAgent (name : String) (priority : Int) (caps : AgentCapabilities)
    (prereqs outs : List String) : Agent :=
  { name := name, priority := priority, capabilities := caps,
    prerequisites := prereqs, outputs := outs,
    is_running := false, execution_count := 0, metrics := initialMetrics }

/-- `BaseAgent._update_metrics`: increments the execution counter,
accumulates time, recomputes the average, and applies the rolling
success-rate update `(old_rate * (N-1) + outcome) / N`. -/
def updateMetrics (m : AgentMetrics) (execution_time : ℚ) (success : Bool)
    (confidence : ℚ) : AgentMetrics :=
  let total_executions := m.total_executions + 1
  let total_time := m.total_time + execution_time
  let average_time :=
    if 0 < total_executions then total_time / (total_executions : ℚ) else m.average_time
  let old_successes := m.success_rate * ((total_executions : ℚ) - 1)
  let success_rate :=
    if success then (old_successes + 1) / (total_executions : ℚ)
    else old_successes / (total_executions : ℚ)
  { total_executions := total_executions, total_time := total_time,
    average_time := average_time, success_rate := success_rate,
    last_confidence := confidence }

/-- `BaseAgent.can_run_parallel_with`: both must allow concurrency, not
both need the GPU, and neither side's outputs may intersect the other's
prerequisites. -/
def canRunParallelWith (x y : Agent) : Bool :=
  if !x.capabilities.can_process_parallel then false
  else if !y.capabilities.can_process_parallel then false
  else if x.capabilities.requires_gpu && y.capabilities.requires_gpu then false
  else if x.outputs.any (fun o => y.prerequisites.contains o) then false
  else if y.outputs.any (fun o => x.prerequisites.contains o) then false
  else true

/-- `BaseAgent.get_estimated_completion_time`: historical average when it
is positive, otherwise the static estimate from capabilities. -/
def getEstimatedCompletionTime (a : Agent) : ℚ :=
  if 0 < a.metrics.average_time then a.metrics.average_time
  else a.capabilities.estimated_processing_time

/-- The outcome of one awaited `contribute()` call: a normal return
(carrying the optional `confidence` and `outputs` fields of the returned
dictionary) or a raised exception. -/
inductive ContributeOutcome where
  | ok (confidence : Option ℚ) (outputs : Option (List String))
  | raise (msg : String)

/-- Whether a `contribute()` outcome counts as a success in `execute()`. -/
def ContributeOutcome.succeeded : ContributeOutcome → Bool
  | ContributeOutcome.ok _ _ => true
  | ContributeOutcome.raise _ => false

/-- The result dictionary returned by `execute()` (and by the group /
phase executors).  Absent dictionary keys are `Option.none`. -/
structure ExecResult where
  success : Bool
  agent : Option String
  error : Option String
  execution_time : Option ℚ
  confidence : Option ℚ
  outputs : Option (List String)
  prerequisites : Option (List String)
deriving DecidableEq

/-- A failure record carrying only `success`, optionally `agent`, and
`error` — the shape built by the group executor's error paths. -/
def mkFailure (agent : Option String) (err : String) : ExecResult :=
  { success := false, agent := agent, error := some err,
    execution_time := Option.none, confidence := Option.none,
    outputs := Option.none, prerequisites := Option.none }

/-- `BaseAgent.execute`: rejects while already running; rejects when
`can_contribute()` is false; otherwise runs `contribute()` (whose
outcome and duration are supplied as oracles) and updates metrics.
Returns (result dict, post-state, number of `contribute()` invocations).
The processing-status and error writes to the shared store are elided. -/
def executeAgent (a : Agent) (cc : Bool) (co : ContributeOutcome) (d : ℚ) :
    ExecResult × Agent × Nat :=
  if a.is_running then
    (mkFailure Option.none "Agent already running", a, 0)
  else if !cc then
    ({ success := false, agent := some a.name, error := some "Prerequisites not met",
       execution_time := Option.none, confidence := Option.none,
       outputs := Option.none, prerequisites := some a.prerequisites },
     { a with is_running := false, execution_count := a.execution_count + 1 }, 0)
  else
    match co with
    | ContributeOutcome.ok conf outs =>
        ({ success := true, agent := some a.name, error := Option.none,
           execution_time := some d, confidence := some (conf.getD 1),
           outputs := some (outs.getD []), prerequisites := Option.none },
         { a with is_running := false, execution_count := a.execution_count + 1,
                  metrics := updateMetrics a.metrics d true (conf.getD 1) }, 1)
    | ContributeOutcome.raise msg =>
        ({ success := false, agent := some a.name,
           error := some ("Agent " ++ a.name ++ " failed: " ++ msg),
           execution_time := some d, confidence := Option.none,
           outputs := Option.none, prerequisites := Option.none },
         { a with is_running := false, execution_count := a.execution_count + 1,
                  metrics := updateMetrics a.metrics d false 0 }, 1)

/-- Folds a sequence of completed executions (contribute outcome and
duration per call, readiness always true) through `execute()`. -/
def runAgentExecs (a : Agent) (steps : List (ContributeOutcome × ℚ)) : Agent :=
  steps.foldl (fun acc s => (executeAgent acc true s.1 s.2).2.1) a

/-- One `_update_metrics` call driven by a (duration, success,
confidence) sample. -/
def metricsStep (m : AgentMetrics) (s : ℚ × Bool × ℚ) : AgentMetrics :=
  updateMetrics m s.1 s.2.1 s.2.2

/-- Folds a sequence of samples through `_update_metrics`. -/
def runMetrics (m : AgentMetrics) (steps : List (ℚ × Bool × ℚ)) : AgentMetrics :=
  steps.foldl metricsStep m

/-- The running-average recurrence stated by the spec: starting from
rate `sr` after `n` executions, the (n+1)-st execution with outcome `o`
yields `(sr * n + o) / (n + 1)`. -/
def successRateRec (sr : ℚ) (n : Nat) : List Bool → ℚ
  | [] => sr
  | o :: os =>
      successRateRec ((sr * (n : ℚ) + (if o then 1 else 0)) / ((n : ℚ) + 1)) (n + 1) os

/-- `ExecutionStrategy` enum from `control_strategy.py`. -/
inductive ExecutionStrategy where
  | sequential
  | parallel
  | hybrid
  | adaptive
deriving DecidableEq

/-- `ExecutionPlan` dataclass. -/
structure ExecutionPlan where
  parallel_groups : List (List Agent)
  sequential_phases : List (List Agent)
  estimated_time : ℚ
  strategy : ExecutionStrategy

/-- Stable insertion into a descending-priority list (elements already
placed keep their position unless strictly lower-priority). -/
def insertByPriority (a : Agent) : List Agent → List Agent
  | [] => [a]
  | b :: bs => if a.priority > b.priority then a :: b :: bs else b :: insertByPriority a bs

/-- Model of `sorted(agents, key=lambda a: a.priority, reverse=True)`:
a stable sort by descending priority. -/
def sortByPriority : List Agent → List Agent
  | [] => []
  | a :: rest => insertByPriority a (sortByPriority rest)

/-- `_create_sequential_plan`: one phase per agent, by descending
priority; estimated time is the sum of the agents' estimates. -/
def createSequentialPlan (agents : List Agent) : ExecutionPlan :=
  { parallel_groups := [],
    sequential_phases := (sortByPriority agents).map (fun a => [a]),
    estimated_time := ((sortByPriority agents).map getEstimatedCompletionTime).sum,
    strategy := ExecutionStrategy.sequential }

/-- The inner loop of `_find_parallel_groups`: scan `rem`, moving into
`group` every agent compatible with all current group members (the group
grows as the scan proceeds).  Returns (final group, agents left over). -/
def collectCompatible (group : List Agent) : List Agent → List Agent × List Agent
  | [] => (group, [])
  | a :: rest =>
      if group.all (fun m => canRunParallelWith a m) then
        collectCompatible (group ++ [a]) rest
      else
        ((collectCompatible group rest).1, a :: (collectCompatible group rest).2)

/-- `_find_parallel_groups`' outer loop, fuelled by the length of the
agent list (the leftover list never grows, so the fuel suffices). -/
def findParallelGroupsAux : Nat → List Agent → List (List Agent)
  | _, [] => []
  | 0, _ :: _ => []
  | fuel + 1, a :: rest =>
      (collectCompatible [a] rest).1
        :: findParallelGroupsAux fuel (collectCompatible [a] rest).2

/-- `_find_parallel_groups`: greedy grouping of compatible agents. -/
def findParallelGroups (agents : List Agent) : List (List Agent) :=
  findParallelGroupsAux agents.length agents

/-- Per-group time: sum of the members' estimated completion times. -/
def groupTimeSum (g : List Agent) : ℚ :=
  (g.map getEstimatedCompletionTime).sum

/-- `max(...)` over the group sums, `0.0` for an empty group list. -/
def maxGroupTime (groups : List (List Agent)) : ℚ :=
  match groups.map groupTimeSum with
  | [] => 0
  | t :: ts => ts.foldl max t

/-- `_create_parallel_plan`: the greedy groups with the slowest-group
estimate. -/
def createParallelPlan (agents : List Agent) : ExecutionPlan :=
  { parallel_groups := findParallelGroups agents,
    sequential_phases := [],
    estimated_time := maxGroupTime (findParallelGroups agents),
    strategy := ExecutionStrategy.parallel }

/-- All units mentioned by a plan, across its groups and phases. -/
def planUnits (p : ExecutionPlan) : List Agent :=
  p.parallel_groups.flatten ++ p.sequential_phases.flatten

/-- Outcome of one task inside `asyncio.gather(..., return_exceptions=True)`:
either the exception it raised or the result dictionary it returned. -/
inductive TaskOutcome where
  | exn (msg : String)
  | ok (r : ExecResult)

/-- Outcome of awaiting a whole parallel group under `asyncio.wait_for`:
either the shared timeout elapsed, or every task settled (the oracle
maps the index in the ready list to that task's outcome). -/
inductive GroupOutcome where
  | timeout
  | settled (f : Nat → TaskOutcome)

/-- The record `{'success': False, 'error': 'Timeout'}` synthesised for
each ready agent when a parallel group times out. -/
def timeoutRecord : ExecResult :=
  mkFailure Option.none "Timeout"

/-- `_execute_parallel_group`: filter to agents whose `can_contribute()`
is true; empty ready list short-circuits to `[]`; on timeout one
`timeoutRecord` per ready agent; otherwise exceptions are converted to
per-agent failure records and normal results pass through. -/
def executeParallelGroup (cc : Agent → Bool) (oc : GroupOutcome)
    (agents : List Agent) : List ExecResult :=
  let ready := agents.filter cc
  if ready.isEmpty then []
  else
    match oc with
    | GroupOutcome.timeout => ready.map (fun _ => timeoutRecord)
    | GroupOutcome.settled f =>
        ready.enum.map (fun p =>
          match f p.1 with
          | TaskOutcome.exn msg => mkFailure (some p.2.name) msg
          | TaskOutcome.ok r => r)

/-- Outcome of awaiting one unit in a sequential phase: per-unit timeout
or the result its `execute()` returned. -/
inductive SeqOutcome where
  | timeout
  | ok (r : ExecResult)

/-- `_execute_sequential_phase`: agents failing `can_contribute()` are
skipped without a record; a timed-out unit yields
`{'success': False, 'agent': name, 'error': 'Timeout'}`. -/
def executeSequentialPhase (cc : Agent → Bool) (oc : Nat → SeqOutcome)
    (agents : List Agent) : List ExecResult :=
  (agents.filter cc).enum.map (fun p =>
    match oc p.1 with
    | SeqOutcome.timeout => mkFailure (some p.2.name) "Timeout"
    | SeqOutcome.ok r => r)

/-- The loop over `plan.parallel_groups` (`i` is the group counter used
to index the per-group outcome oracle). -/
def runGroups (cc : Agent → Bool) (poc : Nat → GroupOutcome) :
    Nat → List (List Agent) → List (List ExecResult)
  | _, [] => []
  | i, g :: gs => executeParallelGroup cc (poc i) g :: runGroups cc poc (i + 1) gs

/-- The loop over `plan.sequential_phases`. -/
def runPhases (cc : Agent → Bool) (soc : Nat → Nat → SeqOutcome) :
    Nat → List (List Agent) → List (List ExecResult)
  | _, [] => []
  | i, p :: ps => executeSequentialPhase cc (soc i) p :: runPhases cc soc (i + 1) ps

/-- The `results` dictionary accumulated by `_execute_plan`. -/
structure PlanResults where
  parallel_results : List (List ExecResult)
  sequential_results : List (List ExecResult)
  total_agents_executed : Nat
  successful_agents : Nat

/-- `_execute_plan`: runs every parallel group, then every sequential
phase, accumulating per-step result lists and the success counters
(`total_agents_executed` counts whole groups/phases, ready or not,
exactly as the source adds `len(group)` / `len(phase)`). -/
def executePlan (cc : Agent → Bool) (poc : Nat → GroupOutcome)
    (soc : Nat → Nat → SeqOutcome) (plan : ExecutionPlan) : PlanResults :=
  let pres := runGroups cc poc 0 plan.parallel_groups
  let sres := runPhases cc soc 0 plan.sequential_phases
  { parallel_results := pres,
    sequential_results := sres,
    total_agents_executed :=
      (plan.parallel_groups.map List.length).sum + (plan.sequential_phases.map List.length).sum,
    successful_agents := ((pres.flatten ++ sres.flatten).filter (fun r => r.success)).length }

/-- A store where a key outside the initial schema was written during a
session. -/
def bbExtra : TherapyBlackboard :=
  (write mkBlackboard "session_extra" (Value.str "leftover") "Tester" 1 []).1

/-- A store with callback `7` subscribed to `user_input`. -/
def bbSub : TherapyBlackboard :=
  subscribe mkBlackboard "user_input" 7

/-- The fold `_initialize_structure` performs over its schema table. -/
def initFold (l : List (String × Value)) (d : List (String × BlackboardEntry)) :
    List (String × BlackboardEntry) :=
  l.foldl (fun acc kv => setKey acc kv.1 (initEntry kv.1 kv.2)) d

/-- An agent whose running flag is set. -/
def busyAgent : Agent :=
  { mkAgent "BusyAgent" 5 defaultCapabilities [] [] with is_running := true }

/-- Capabilities with a static duration estimate of 5 seconds. -/
def capsSlow : AgentCapabilities :=
  { can_process_parallel := true, requires_gpu := false,
    estimated_processing_time := 5, confidence_threshold := 7/10,
    fallback_available := false }

/-- An agent after one execution recorded with duration 0. -/
def agentZeroAvg : Agent :=
  { mkAgent "ZeroDuration" 5 capsSlow [] [] with
    metrics := runMetrics initialMetrics [(0, true, 1)] }

/-- An agent after one execution recorded with duration 2. -/
def agentTimed : Agent :=
  { mkAgent "TimedAgent" 5 capsSlow [] [] with
    metrics := runMetrics initialMetrics [(2, true, 1)] }

/-- An agent producing `theme_scores`. -/
def agentProducer : Agent :=
  mkAgent "ThemeAnalysisAgent" 8 defaultCapabilities [] ["theme_scores"]

/-- An agent requiring `theme_scores` before it can run. -/
def agentConsumer : Agent :=
  mkAgent "StreamingAgent" 6 defaultCapabilities ["theme_scores"] []

/-- Compatibility of a later-scheduled group member with an earlier one,
as checked by the greedy grouping loop. -/
def laterCompat (x y : Agent) : Prop := canRunParallelWith y x = true

/-- Readiness oracle under which only `agentProducer` can contribute. -/
def ccOnlyProducer : Agent → Bool := fun a => a.name == "ThemeAnalysisAgent"

/-- A one-group parallel plan over the two fixture agents. -/
def planW : ExecutionPlan :=
  { parallel_groups := [[agentProducer, agentConsumer]], sequential_phases := [],
    estimated_time := 0, strategy := ExecutionStrategy.parallel }

theorem lookupKey_setKey_self {β : Type} (d : List (String × β)) (k : String) (v : β) :
    lookupKey (setKey d k v) k = some v := by
  induction d with
  | nil => simp [setKey, lookupKey]
  | cons hd tl ih =>
      obtain ⟨k', v'⟩ := hd
      by_cases hk : k' = k
      · simp [setKey, hk, lookupKey]
      · simp [setKey, hk, lookupKey, ih]

theorem lookupKey_setKey_ne {β : Type} (d : List (String × β)) (k k' : String) (v : β)
    (h : k' ≠ k) : lookupKey (setKey d k' v) k = lookupKey d k := by
  induction d with
  | nil => simp [setKey, lookupKey, h]
  | cons hd tl ih =>
      obtain ⟨k₀, v₀⟩ := hd
      by_cases hk : k₀ = k'
      · subst hk
        simp [setKey, lookupKey, h]
      · simp [setKey, hk, lookupKey, ih]


theorem clear_data (bb : TherapyBlackboard) :
    (clear bb).data = initFold initialData bb.data := by
  simp only [clear, initializeStructure, initFold]

theorem clear_subscribers (bb : TherapyBlackboard) :
    (clear bb).subscribers = bb.subscribers := by
  simp only [clear, initializeStructure]

theorem write_fst_data (bb : TherapyBlackboard) (k : String) (v : Value) (src : String)
    (c : ℚ) (md : List (String × Value)) :
    (write bb k v src c md).1.data
      = setKey bb.data k { key := k, value := v, source := src, confidence := c,
                           metadata := md } := by
  simp only [write]

theorem write_snd (bb : TherapyBlackboard) (k : String) (v : Value) (src : String)
    (c : ℚ) (md : List (String × Value)) :
    (write bb k v src c md).2
      = ((lookupKey bb.subscribers k).getD []).map
          (fun cb => (cb, { key := k, value := v, source := src, confidence := c,
                            metadata := md })) := by
  simp only [write]

theorem mkBlackboard_data : mkBlackboard.data = initFold initialData [] := by
  simp only [mkBlackboard, initializeStructure, initFold]

theorem mkBlackboard_subscribers : mkBlackboard.subscribers = [] := by
  simp only [mkBlackboard, initializeStructure]

theorem subscribe_subscribers (bb : TherapyBlackboard) (k : String) (cb : Nat) :
    (subscribe bb k cb).subscribers
      = setKey bb.subscribers k (((lookupKey bb.subscribers k).getD []) ++ [cb]) := by
  simp only [subscribe]

theorem initFold_lookup_not_mem (l : List (String × Value))
    (d : List (String × BlackboardEntry)) (k : String) (h : k ∉ l.map Prod.fst) :
    lookupKey (initFold l d) k = lookupKey d k := by
  induction l generalizing d with
  | nil => rfl
  | cons hd tl ih =>
      simp only [List.map_cons, List.mem_cons] at h
      push_neg at h
      rw [show initFold (hd :: tl) d = initFold tl (setKey d hd.1 (initEntry hd.1 hd.2)) from rfl]
      rw [ih _ h.2, lookupKey_setKey_ne _ _ _ _ (fun e => h.1 e.symm)]

theorem initFold_lookup_mem (l : List (String × Value))
    (d : List (String × BlackboardEntry)) (k : String) (v : Value)
    (hnd : (l.map Prod.fst).Nodup) (hmem : (k, v) ∈ l) :
    lookupKey (initFold l d) k = some (initEntry k v) := by
  induction l generalizing d with
  | nil => cases hmem
  | cons hd tl ih =>
      simp only [List.map_cons, List.nodup_cons] at hnd
      rw [show initFold (hd :: tl) d = initFold tl (setKey d hd.1 (initEntry hd.1 hd.2)) from rfl]
      rcases List.mem_cons.mp hmem with heq | htl
      · have hk : hd.1 = k := by rw [← heq]
        have hv : hd.2 = v := by rw [← heq]
        subst hk
        have hout : hd.1 ∉ tl.map Prod.fst := hnd.1
        rw [initFold_lookup_not_mem _ _ _ hout, lookupKey_setKey_self, hv]
      · exact ih _ hnd.2 htl

theorem initialData_keys_nodup : (initialData.map Prod.fst).Nodup := by
  simp [initialData]

theorem extra_key_not_schema : "session_extra" ∉ initialData.map Prod.fst := by
  simp [initialData]

/-- C3 (amended): after `clear()` every key of the fixed initial schema
carries its null/empty default entry, the write/read counters and
per-source contributions are zero, and the session start time is unset;
keys outside the schema written before `clear()` keep their old entries
(they are not removed). -/
theorem clear_resets_schema_and_counters (bb : TherapyBlackboard) :
    (∀ k v, (k, v) ∈ initialData → lookupKey (clear bb).data k = some (initEntry k v)) ∧
    (∀ k, k ∉ initialData.map Prod.fst → lookupKey (clear bb).data k = lookupKey bb.data k) ∧
    (clear bb).metrics = zeroMetrics ∧
    (clear bb).processing_start_time = Option.none := by
  refine ⟨?_, ?_, rfl, rfl⟩
  · intro k v hmem
    rw [clear_data]
    exact initFold_lookup_mem initialData bb.data k v initialData_keys_nodup hmem
  · intro k h
    rw [clear_data]
    exact initFold_lookup_not_mem initialData bb.data k h

theorem clear_resets_schema_and_counters_witness :
    ("user_input", Value.none) ∈ initialData ∧
    "session_extra" ∉ initialData.map Prod.fst ∧
    lookupKey (clear bbExtra).data "user_input" = some (initEntry "user_input" Value.none) ∧
    lookupKey (clear bbExtra).data "session_extra" = lookupKey bbExtra.data "session_extra" := by
  have h := clear_resets_schema_and_counters bbExtra
  exact ⟨List.mem_cons_self _ _, extra_key_not_schema,
    h.1 "user_input" Value.none (List.mem_cons_self _ _),
    h.2.1 "session_extra" extra_key_not_schema⟩

/-- C3 counterexample: a key written outside the initial schema survives
`clear()` with its old value, so not every key held by the cleared store
is a schema key. -/
theorem clear_retains_foreign_keys_cex :
    lookupKey (clear bbExtra).data "session_extra"
      = some { key := "session_extra", value := Value.str "leftover",
               source := "Tester", confidence := 1, metadata := [] } ∧
    "session_extra" ∉ initialData.map Prod.fst := by
  refine ⟨?_, extra_key_not_schema⟩
  rw [clear_data, initFold_lookup_not_mem _ _ _ extra_key_not_schema]
  show lookupKey (write mkBlackboard "session_extra" (Value.str "leftover") "Tester" 1 []).1.data
      "session_extra" = _
  rw [write_fst_data, lookupKey_setKey_self]

/-- C7: a write followed by a read of the same key returns exactly the
written value, and reading a key with no entry returns `None` (the read
path is total — it cannot raise). -/
theorem write_read_roundtrip :
    (∀ (bb : TherapyBlackboard) (k : String) (v : Value) (src : String) (c : ℚ)
        (md : List (String × Value)), (read (write bb k v src c md).1 k).1 = v) ∧
    (∀ (bb : TherapyBlackboard) (k : String),
        lookupKey bb.data k = Option.none → (read bb k).1 = Value.none) := by
  constructor
  · intro bb k v src c md
    simp [read, write, lookupKey_setKey_self]
  · intro bb k h
    simp [read, h]

theorem write_read_roundtrip_witness :
    (read (write mkBlackboard "user_intent" (Value.str "support") "Tester" 1 []).1
        "user_intent").1 = Value.str "support" ∧
    lookupKey mkBlackboard.data "session_extra" = Option.none ∧
    (read mkBlackboard "session_extra").1 = Value.none := by
  have hnone : lookupKey mkBlackboard.data "session_extra" = Option.none := by
    rw [mkBlackboard_data, initFold_lookup_not_mem _ _ _ extra_key_not_schema]
    rfl
  exact ⟨write_read_roundtrip.1 mkBlackboard "user_intent" (Value.str "support") "Tester" 1 [],
    hnone, write_read_roundtrip.2 mkBlackboard "session_extra" hnone⟩

/-- C9: an operation name outside the five entries of the fixed
prerequisite table is ready regardless of store contents, because the
required key set defaults to empty. -/
theorem is_ready_for_unknown_operation (bb : TherapyBlackboard) (op : String)
    (h : op ∉ ["theme_analysis", "excerpt_retrieval", "summary_generation",
               "quality_assurance", "streaming_update"]) :
    isReadyFor bb op = true := by
  simp only [List.mem_cons, List.not_mem_nil, or_false, not_or] at h
  obtain ⟨h1, h2, h3, h4, h5⟩ := h
  simp [isReadyFor, prerequisitesTable, h1, h2, h3, h4, h5]

theorem is_ready_for_unknown_operation_witness :
    "finalize_session" ∉ ["theme_analysis", "excerpt_retrieval", "summary_generation",
                          "quality_assurance", "streaming_update"] ∧
    isReadyFor mkBlackboard "finalize_session" = true := by
  have h : "finalize_session" ∉ ["theme_analysis", "excerpt_retrieval", "summary_generation",
      "quality_assurance", "streaming_update"] := by simp
  exact ⟨h, is_ready_for_unknown_operation mkBlackboard "finalize_session" h⟩

/-- C10: `clear()` leaves the subscriber registrations untouched, so a
callback subscribed to a key before `clear()` is still invoked, with the
newly written entry, by a write to that key after `clear()`. -/
theorem clear_preserves_subscriptions (bb : TherapyBlackboard) (k : String) (c : Nat)
    (hc : c ∈ (lookupKey bb.subscribers k).getD [])
    (v : Value) (src : String) (conf : ℚ) (md : List (String × Value)) :
    (clear bb).subscribers = bb.subscribers ∧
    (c, ({ key := k, value := v, source := src, confidence := conf,
           metadata := md } : BlackboardEntry)) ∈ (write (clear bb) k v src conf md).2 := by
  refine ⟨clear_subscribers bb, ?_⟩
  rw [write_snd, clear_subscribers]
  exact List.mem_map_of_mem _ hc

theorem clear_preserves_subscriptions_witness :
    7 ∈ (lookupKey bbSub.subscribers "user_input").getD [] ∧
    (7, ({ key := "user_input", value := Value.str "hello", source := "Tester",
           confidence := 1, metadata := [] } : BlackboardEntry))
      ∈ (write (clear bbSub) "user_input" (Value.str "hello") "Tester" 1 []).2 := by
  have hc : 7 ∈ (lookupKey bbSub.subscribers "user_input").getD [] := by
    show 7 ∈ (lookupKey (subscribe mkBlackboard "user_input" 7).subscribers "user_input").getD []
    rw [subscribe_subscribers, mkBlackboard_subscribers, lookupKey_setKey_self]
    simp
  exact ⟨hc,
    (clear_preserves_subscriptions bbSub "user_input" 7 hc
        (Value.str "hello") "Tester" 1 []).2⟩


theorem updateMetrics_total_executions (m : AgentMetrics) (t : ℚ) (s : Bool) (c : ℚ) :
    (updateMetrics m t s c).total_executions = m.total_executions + 1 := rfl

theorem updateMetrics_total_time (m : AgentMetrics) (t : ℚ) (s : Bool) (c : ℚ) :
    (updateMetrics m t s c).total_time = m.total_time + t := rfl

theorem updateMetrics_success_rate (m : AgentMetrics) (t : ℚ) (s : Bool) (c : ℚ) :
    (updateMetrics m t s c).success_rate
      = (m.success_rate * (m.total_executions : ℚ) + (if s then 1 else 0))
          / ((m.total_executions : ℚ) + 1) := by
  cases s <;>
    · simp only [updateMetrics]
      push_cast
      ring_nf

theorem updateMetrics_average_time (m : AgentMetrics) (t : ℚ) (s : Bool) (c : ℚ) :
    (updateMetrics m t s c).average_time
      = (m.total_time + t) / ((m.total_executions : ℚ) + 1) := by
  simp only [updateMetrics]
  rw [if_pos (Nat.succ_pos m.total_executions)]
  push_cast
  ring_nf

theorem runMetrics_success_rate (steps : List (ℚ × Bool × ℚ)) :
    ∀ m : AgentMetrics,
      (runMetrics m steps).success_rate
        = successRateRec m.success_rate m.total_executions (steps.map (fun s => s.2.1)) := by
  induction steps with
  | nil => intro m; rfl
  | cons s ss ih =>
      intro m
      show (runMetrics (metricsStep m s) ss).success_rate = _
      rw [ih]
      simp only [List.map_cons, successRateRec, metricsStep]
      rw [updateMetrics_success_rate, updateMetrics_total_executions]

theorem runMetrics_total_executions (steps : List (ℚ × Bool × ℚ)) :
    ∀ m : AgentMetrics,
      (runMetrics m steps).total_executions = m.total_executions + steps.length := by
  induction steps with
  | nil => intro m; rfl
  | cons s ss ih =>
      intro m
      show (runMetrics (metricsStep m s) ss).total_executions = _
      rw [ih]
      simp only [metricsStep, updateMetrics_total_executions, List.length_cons]
      omega

theorem runMetrics_total_time (steps : List (ℚ × Bool × ℚ)) :
    ∀ m : AgentMetrics,
      (runMetrics m steps).total_time = m.total_time + (steps.map (fun s => s.1)).sum := by
  induction steps with
  | nil => intro m; simp [runMetrics]
  | cons s ss ih =>
      intro m
      show (runMetrics (metricsStep m s) ss).total_time = _
      rw [ih]
      simp only [metricsStep, updateMetrics_total_time, List.map_cons, List.sum_cons]
      ring

theorem runMetrics_average_time (steps : List (ℚ × Bool × ℚ)) (h : steps ≠ []) :
    ∀ m : AgentMetrics,
      (runMetrics m steps).average_time
        = (runMetrics m steps).total_time / ((runMetrics m steps).total_executions : ℚ) := by
  induction steps with
  | nil => cases h rfl
  | cons s ss ih =>
      intro m
      rcases Decidable.em (ss = []) with he | hne
      · subst he
        show (metricsStep m s).average_time = _
        simp only [metricsStep, runMetrics, List.foldl_cons, List.foldl_nil]
        rw [updateMetrics_average_time, updateMetrics_total_time, updateMetrics_total_executions]
        push_cast
        ring_nf
      · exact ih hne (metricsStep m s)

theorem executeAgent_fresh_state (a : Agent) (co : ContributeOutcome) (d : ℚ)
    (h : a.is_running = false) :
    (executeAgent a true co d).2.1.is_running = false ∧
    (executeAgent a true co d).2.1.metrics
      = updateMetrics a.metrics d co.succeeded
          (match co with
           | ContributeOutcome.ok cf _ => cf.getD 1
           | ContributeOutcome.raise _ => 0) := by
  cases co <;> simp [executeAgent, h, ContributeOutcome.succeeded]

theorem runAgentExecs_metrics (steps : List (ContributeOutcome × ℚ)) :
    ∀ a : Agent, a.is_running = false →
      (runAgentExecs a steps).metrics
        = runMetrics a.metrics
            (steps.map (fun s =>
              (s.2, s.1.succeeded,
               match s.1 with
               | ContributeOutcome.ok cf _ => cf.getD 1
               | ContributeOutcome.raise _ => 0))) := by
  induction steps with
  | nil => intro a _; rfl
  | cons s ss ih =>
      intro a ha
      show (runAgentExecs (executeAgent a true s.1 s.2).2.1 ss).metrics = _
      have hs := executeAgent_fresh_state a s.1 s.2 ha
      rw [ih _ hs.1, hs.2]
      rfl

/-- C5: starting from the constructor's optimistic seed 1.0, after a
sequence of N completed executions the agent's stored success rate
equals the running average `(rate * (N-1) + outcome) / N` applied step
by step to the outcome sequence. -/
theorem success_rate_running_average (name : String) (priority : Int)
    (caps : AgentCapabilities) (prereqs outs : List String)
    (steps : List (ContributeOutcome × ℚ)) :
    (runAgentExecs (mkAgent name priority caps prereqs outs) steps).metrics.success_rate
      = successRateRec 1 0 (steps.map (fun s => s.1.succeeded)) := by
  rw [runAgentExecs_metrics steps _ rfl, runMetrics_success_rate, List.map_map]
  rfl

/-- C6: executing an agent whose running flag is set yields an immediate
`{success: false, error: 'Agent already running'}` result, leaves the
agent untouched, and performs zero `contribute()` invocations. -/
theorem execute_rejects_when_already_running (a : Agent) (cc : Bool)
    (co : ContributeOutcome) (d : ℚ) (h : a.is_running = true) :
    (executeAgent a cc co d).1.success = false ∧
    (executeAgent a cc co d).1.error = some "Agent already running" ∧
    (executeAgent a cc co d).2.1 = a ∧
    (executeAgent a cc co d).2.2 = 0 := by
  simp [executeAgent, h, mkFailure]

theorem execute_rejects_when_already_running_witness :
    busyAgent.is_running = true ∧
    (executeAgent busyAgent true (ContributeOutcome.ok Option.none Option.none) 1).1.success
       = false ∧
    (executeAgent busyAgent true (ContributeOutcome.ok Option.none Option.none) 1).2.2 = 0 := by
  have h := execute_rejects_when_already_running busyAgent true
    (ContributeOutcome.ok Option.none Option.none) 1 rfl
  exact ⟨rfl, h.1, h.2.2.2⟩

/-- C8 counterexample: an agent with one recorded execution of duration
zero has occurred executions but a zero historical average, and
`get_estimated_completion_time()` returns the static estimate (5), not
the historical average. -/
theorem estimated_time_ignores_zero_average_cex :
    agentZeroAvg.metrics.total_executions = 1 ∧
    agentZeroAvg.metrics.average_time = 0 ∧
    getEstimatedCompletionTime agentZeroAvg = 5 ∧
    getEstimatedCompletionTime agentZeroAvg ≠ agentZeroAvg.metrics.average_time := by
  have hm : agentZeroAvg.metrics = runMetrics initialMetrics [(0, true, 1)] := rfl
  have havg : agentZeroAvg.metrics.average_time = 0 := by
    rw [hm, runMetrics_average_time _ (by simp), runMetrics_total_time,
        runMetrics_total_executions]
    norm_num [initialMetrics]
  have hest : getEstimatedCompletionTime agentZeroAvg = 5 := by
    simp only [getEstimatedCompletionTime, havg]
    norm_num [agentZeroAvg, mkAgent, capsSlow]
  refine ⟨?_, havg, hest, ?_⟩
  · rw [hm, runMetrics_total_executions]
    simp [initialMetrics]
  · rw [hest, havg]
    norm_num

/-- C8 (amended): `get_estimated_completion_time()` returns the
historical average duration whenever some execution occurred with a
positive total recorded duration (which makes the stored average
positive); with no executions it returns the static estimate from
capabilities.  (When executions occurred but every recorded duration was
zero, the code also falls back to the static estimate — the point where
the claim as stated fails.) -/
theorem estimated_time_historical_or_static (a : Agent) (steps : List (ℚ × Bool × ℚ))
    (hm : a.metrics = runMetrics initialMetrics steps)
    (hnn : ∀ s ∈ steps, 0 ≤ s.1) :
    ((∃ s ∈ steps, 0 < s.1) →
        getEstimatedCompletionTime a = a.metrics.average_time) ∧
    (steps = [] →
        getEstimatedCompletionTime a = a.capabilities.estimated_processing_time) := by
  constructor
  · rintro ⟨s, hs, hspos⟩
    have hne : steps ≠ [] := by rintro rfl; cases hs
    have htime : 0 < (runMetrics initialMetrics steps).total_time := by
      rw [runMetrics_total_time]
      simp only [initialMetrics, zero_add]
      calc (0 : ℚ) < s.1 := hspos
        _ ≤ (steps.map (fun s => s.1)).sum := by
            refine List.single_le_sum ?_ _ (List.mem_map_of_mem _ hs)
            intro x hx
            obtain ⟨y, hy, hxy⟩ := List.mem_map.mp hx
            exact hxy ▸ hnn y hy
    have hlen : 0 < ((runMetrics initialMetrics steps).total_executions : ℚ) := by
      rw [runMetrics_total_executions]
      simp only [initialMetrics, zero_add]
      exact_mod_cast List.length_pos.mpr hne
    have havg : 0 < a.metrics.average_time := by
      rw [hm, runMetrics_average_time _ hne]
      exact div_pos htime hlen
    simp only [getEstimatedCompletionTime]
    rw [if_pos havg]
  · rintro rfl
    have h0 : a.metrics = initialMetrics := hm
    simp [getEstimatedCompletionTime, h0, initialMetrics]

theorem estimated_time_historical_or_static_witness :
    agentTimed.metrics = runMetrics initialMetrics [(2, true, 1)] ∧
    (∃ s ∈ [((2 : ℚ), true, (1 : ℚ))], 0 < s.1) ∧
    getEstimatedCompletionTime agentTimed = agentTimed.metrics.average_time := by
  have hw : (∃ s ∈ [((2 : ℚ), true, (1 : ℚ))], 0 < s.1) := ⟨(2, true, 1), by simp, by norm_num⟩
  exact ⟨rfl, hw,
    (estimated_time_historical_or_static agentTimed [(2, true, 1)] rfl
        (by intro s hs; simp at hs; rw [hs]; norm_num)).1 hw⟩


theorem insertByPriority_perm (a : Agent) (l : List Agent) :
    List.Perm (insertByPriority a l) (a :: l) := by
  induction l with
  | nil => exact List.Perm.refl _
  | cons b bs ih =>
      by_cases h : a.priority > b.priority
      · simp [insertByPriority, h]
      · simp only [insertByPriority, if_neg h]
        exact (List.Perm.cons _ ih).trans (List.Perm.swap _ _ _)

theorem sortByPriority_perm (l : List Agent) : List.Perm (sortByPriority l) l := by
  induction l with
  | nil => exact List.Perm.refl _
  | cons a as ih => exact (insertByPriority_perm _ _).trans (List.Perm.cons _ ih)

theorem collectCompatible_append_perm (rest : List Agent) :
    ∀ group : List Agent,
      List.Perm ((collectCompatible group rest).1 ++ (collectCompatible group rest).2)
        (group ++ rest) := by
  induction rest with
  | nil => intro group; simp [collectCompatible]
  | cons a rs ih =>
      intro group
      by_cases h : group.all (fun m => canRunParallelWith a m)
      · simp only [collectCompatible, if_pos h]
        have he : (group ++ [a]) ++ rs = group ++ a :: rs := by simp
        exact he ▸ ih (group ++ [a])
      · simp only [collectCompatible, if_neg h]
        exact List.perm_middle.trans
          ((List.Perm.cons _ (ih group)).trans List.perm_middle.symm)

theorem collectCompatible_snd_length (rest : List Agent) :
    ∀ group : List Agent,
      (collectCompatible group rest).2.length ≤ rest.length := by
  induction rest with
  | nil => intro group; simp [collectCompatible]
  | cons a rs ih =>
      intro group
      by_cases h : group.all (fun m => canRunParallelWith a m)
      · simp only [collectCompatible, if_pos h, List.length_cons]
        exact le_trans (ih _) (Nat.le_succ _)
      · simp only [collectCompatible, if_neg h, List.length_cons]
        exact Nat.succ_le_succ (ih _)

theorem findParallelGroupsAux_flatten_perm :
    ∀ (fuel : Nat) (l : List Agent), l.length ≤ fuel →
      List.Perm (findParallelGroupsAux fuel l).flatten l := by
  intro fuel
  induction fuel with
  | zero =>
      intro l h
      cases l with
      | nil => exact List.Perm.refl _
      | cons a rest => simp at h
  | succ n ih =>
      intro l h
      cases l with
      | nil => exact List.Perm.refl _
      | cons a rest =>
          simp only [findParallelGroupsAux, List.flatten_cons]
          have hr : (collectCompatible [a] rest).2.length ≤ n :=
            le_trans (collectCompatible_snd_length rest [a]) (by simpa using h)
          exact (List.Perm.append_left _ (ih _ hr)).trans
            (collectCompatible_append_perm rest [a])

theorem flatten_map_singleton (l : List Agent) :
    (l.map (fun a => [a])).flatten = l := by
  induction l <;> simp_all

/-- C1: under the SEQUENTIAL and PARALLEL strategies, every agent of a
registered (duplicate-free) agent list occurs exactly once across the
plan's phases/groups: its multiplicity is 1 for registered agents and 0
for any other agent. -/
theorem plan_contains_each_agent_once (agents : List Agent) (hnd : agents.Nodup)
    (a : Agent) :
    (planUnits (createSequentialPlan agents)).count a = (if a ∈ agents then 1 else 0) ∧
    (planUnits (createParallelPlan agents)).count a = (if a ∈ agents then 1 else 0) := by
  have hseq : List.Perm (planUnits (createSequentialPlan agents)) agents := by
    simp only [planUnits, createSequentialPlan, List.flatten_nil, List.nil_append]
    rw [flatten_map_singleton]
    exact sortByPriority_perm agents
  have hpar : List.Perm (planUnits (createParallelPlan agents)) agents := by
    simp only [planUnits, createParallelPlan, List.flatten_nil, List.append_nil]
    exact findParallelGroupsAux_flatten_perm agents.length agents (le_refl _)
  have hcount : ∀ l : List Agent, List.Perm l agents →
      l.count a = (if a ∈ agents then 1 else 0) := by
    intro l hl
    rw [hl.count_eq]
    by_cases hm : a ∈ agents
    · rw [if_pos hm]
      exact List.count_eq_one_of_mem hnd hm
    · rw [if_neg hm]
      exact List.count_eq_zero.mpr hm
  exact ⟨hcount _ hseq, hcount _ hpar⟩

theorem producer_ne_consumer : agentProducer ≠ agentConsumer := by
  simp [agentProducer, agentConsumer, mkAgent]

theorem plan_contains_each_agent_once_witness :
    ([agentProducer, agentConsumer] : List Agent).Nodup ∧
    (planUnits (createSequentialPlan [agentProducer, agentConsumer])).count agentProducer
      = 1 ∧
    (planUnits (createParallelPlan [agentProducer, agentConsumer])).count agentProducer
      = 1 := by
  have hnd : ([agentProducer, agentConsumer] : List Agent).Nodup := by
    simp [List.nodup_cons, producer_ne_consumer]
  have h := plan_contains_each_agent_once [agentProducer, agentConsumer] hnd agentProducer
  rw [if_pos (List.mem_cons_self _ _)] at h
  exact ⟨hnd, h.1, h.2⟩


theorem canRunParallelWith_false_of_dep (A B : Agent)
    (hdep : A.outputs.any (fun o => B.prerequisites.contains o) = true) :
    canRunParallelWith A B = false ∧ canRunParallelWith B A = false := by
  constructor <;>
    · simp only [canRunParallelWith]
      split_ifs <;> simp_all

theorem collectCompatible_pairwise (rest : List Agent) :
    ∀ group : List Agent, group.Pairwise laterCompat →
      ((collectCompatible group rest).1).Pairwise laterCompat := by
  induction rest with
  | nil => intro group hg; simpa [collectCompatible] using hg
  | cons a rs ih =>
      intro group hg
      by_cases h : group.all (fun m => canRunParallelWith a m)
      · simp only [collectCompatible, if_pos h]
        refine ih _ ?_
        rw [List.pairwise_append]
        refine ⟨hg, List.pairwise_singleton _ _, ?_⟩
        intro x hx y hy
        rw [List.mem_singleton] at hy
        subst hy
        exact List.all_eq_true.mp h x hx
      · simp only [collectCompatible, if_neg h]
        exact ih group hg

theorem findParallelGroupsAux_pairwise :
    ∀ (fuel : Nat) (l g : List Agent),
      g ∈ findParallelGroupsAux fuel l → g.Pairwise laterCompat := by
  intro fuel
  induction fuel with
  | zero =>
      intro l g hg
      cases l with
      | nil => simp [findParallelGroupsAux] at hg
      | cons a rest => simp [findParallelGroupsAux] at hg
  | succ n ih =>
      intro l g hg
      cases l with
      | nil => simp [findParallelGroupsAux] at hg
      | cons a rest =>
          simp only [findParallelGroupsAux, List.mem_cons] at hg
          rcases hg with rfl | h
          · exact collectCompatible_pairwise rest [a] (List.pairwise_singleton _ _)
          · exact ih _ _ h

/-- C2: if agent A's declared outputs intersect agent B's declared
prerequisites, no group produced by the PARALLEL strategy's greedy
grouping contains both A and B. -/
theorem dependent_agents_not_cogrouped (agents : List Agent) (A B : Agent)
    (hne : A ≠ B)
    (hdep : A.outputs.any (fun o => B.prerequisites.contains o) = true)
    (g : List Agent) (hg : g ∈ findParallelGroups agents) (hA : A ∈ g) : B ∉ g := by
  intro hB
  have hpw : g.Pairwise laterCompat :=
    findParallelGroupsAux_pairwise agents.length agents g hg
  have hsym : g.Pairwise
      (fun x y => canRunParallelWith x y = true ∨ canRunParallelWith y x = true) :=
    hpw.imp (fun h => Or.inr h)
  have hfalse := canRunParallelWith_false_of_dep A B hdep
  have hAB := List.Pairwise.forall (fun _ _ h => h.symm) hsym hA hB hne
  rcases hAB with h1 | h2
  · rw [hfalse.1] at h1
    cases h1
  · rw [hfalse.2] at h2
    cases h2

theorem producer_consumer_dep :
    agentProducer.outputs.any (fun o => agentConsumer.prerequisites.contains o) = true := by
  simp [agentProducer, agentConsumer, mkAgent]

theorem producer_consumer_groups :
    findParallelGroups [agentProducer, agentConsumer] = [[agentProducer], [agentConsumer]] := by
  simp [findParallelGroups, findParallelGroupsAux, collectCompatible, canRunParallelWith,
        agentProducer, agentConsumer, mkAgent, defaultCapabilities]

theorem dependent_agents_not_cogrouped_witness :
    agentProducer.outputs.any (fun o => agentConsumer.prerequisites.contains o) = true ∧
    [agentProducer] ∈ findParallelGroups [agentProducer, agentConsumer] ∧
    agentConsumer ∉ [agentProducer] := by
  refine ⟨producer_consumer_dep, ?_, ?_⟩
  · rw [producer_consumer_groups]
    exact List.mem_cons_self _ _
  · exact dependent_agents_not_cogrouped [agentProducer, agentConsumer]
      agentProducer agentConsumer producer_ne_consumer producer_consumer_dep
      [agentProducer]
      (by rw [producer_consumer_groups]; exact List.mem_cons_self _ _)
      (List.mem_singleton.mpr rfl)


theorem runGroups_length (cc : Agent → Bool) (poc : Nat → GroupOutcome) :
    ∀ (gs : List (List Agent)) (i : Nat), (runGroups cc poc i gs).length = gs.length := by
  intro gs
  induction gs with
  | nil => intro i; rfl
  | cons g tail ih => intro i; simp [runGroups, ih]

theorem runPhases_length (cc : Agent → Bool) (soc : Nat → Nat → SeqOutcome) :
    ∀ (ps : List (List Agent)) (i : Nat), (runPhases cc soc i ps).length = ps.length := by
  intro ps
  induction ps with
  | nil => intro i; rfl
  | cons p tail ih => intro i; simp [runPhases, ih]

theorem runGroups_getElem (cc : Agent → Bool) (poc : Nat → GroupOutcome) :
    ∀ (gs : List (List Agent)) (i j : Nat),
      (runGroups cc poc i gs)[j]?
        = (gs[j]?).map (fun g => executeParallelGroup cc (poc (i + j)) g) := by
  intro gs
  induction gs with
  | nil => intro i j; simp [runGroups]
  | cons g tail ih =>
      intro i j
      cases j with
      | zero => simp [runGroups]
      | succ j' =>
          simp only [runGroups, List.getElem?_cons_succ]
          rw [ih (i + 1) j']
          have ha : i + 1 + j' = i + (j' + 1) := by omega
          rw [ha]

/-- C4 (amended): when a parallel group's shared timeout elapses, every
unit of that group that passed the `can_contribute` eligibility filter
is recorded as failed with a `{success: false, error: 'Timeout'}`
record (ineligible units are skipped with no record), and execution
continues through the rest of the plan: every group and phase of the
plan still yields its result list. -/
theorem group_timeout_failure_records (cc : Agent → Bool) (poc : Nat → GroupOutcome)
    (soc : Nat → Nat → SeqOutcome) (plan : ExecutionPlan) (i : Nat) (group : List Agent)
    (hg : plan.parallel_groups[i]? = some group)
    (ht : poc i = GroupOutcome.timeout)
    (hr : group.filter cc ≠ []) :
    (executePlan cc poc soc plan).parallel_results[i]?
      = some ((group.filter cc).map (fun _ => timeoutRecord)) ∧
    (executePlan cc poc soc plan).parallel_results.length
      = plan.parallel_groups.length ∧
    (executePlan cc poc soc plan).sequential_results.length
      = plan.sequential_phases.length := by
  have hpr : (executePlan cc poc soc plan).parallel_results
      = runGroups cc poc 0 plan.parallel_groups := rfl
  have hsr : (executePlan cc poc soc plan).sequential_results
      = runPhases cc soc 0 plan.sequential_phases := rfl
  refine ⟨?_, ?_, ?_⟩
  · rw [hpr, runGroups_getElem, hg]
    simp only [Option.map_some', Nat.zero_add, ht]
    congr 1
    simp only [executeParallelGroup]
    rw [if_neg (by simp [List.isEmpty_iff, hr])]
  · rw [hpr, runGroups_length]
  · rw [hsr, runPhases_length]

theorem group_timeout_failure_records_witness :
    planW.parallel_groups[0]? = some [agentProducer, agentConsumer] ∧
    ([agentProducer, agentConsumer] : List Agent).filter ccOnlyProducer ≠ [] ∧
    (executePlan ccOnlyProducer (fun _ => GroupOutcome.timeout)
        (fun _ _ => SeqOutcome.timeout) planW).parallel_results[0]?
      = some ((([agentProducer, agentConsumer] : List Agent).filter ccOnlyProducer).map
          (fun _ => timeoutRecord)) := by
  have hf : ([agentProducer, agentConsumer] : List Agent).filter ccOnlyProducer
      = [agentProducer] := rfl
  have hfilter : ([agentProducer, agentConsumer] : List Agent).filter ccOnlyProducer ≠ [] := by
    rw [hf]
    simp
  exact ⟨rfl, hfilter,
    (group_timeout_failure_records ccOnlyProducer (fun _ => GroupOutcome.timeout)
        (fun _ _ => SeqOutcome.timeout) planW 0 [agentProducer, agentConsumer]
        rfl rfl hfilter).1⟩

/-- C4 counterexample: a timed-out group of two units where only one
passes the `can_contribute` filter produces a single
`{success: false, error: 'Timeout'}` record — the ineligible unit gets
no record at all, so not every unit in the group is recorded. -/
theorem group_timeout_records_only_ready_cex :
    executeParallelGroup ccOnlyProducer GroupOutcome.timeout
        [agentProducer, agentConsumer] = [timeoutRecord] ∧
    (executeParallelGroup ccOnlyProducer GroupOutcome.timeout
        [agentProducer, agentConsumer]).length = 1 ∧
    ([agentProducer, agentConsumer] : List Agent).length = 2 :=
  ⟨rfl, rfl, rfl⟩
